import Mathlib

/-!
Shallow embedding of the IRKeybridge key-mapping/repeat-state engine
(`src/key_mapper.py`, class `KeyMapper`) together with proofs of the
spec-level properties of its `process_code` / `cleanup` / auto-release
behaviour.

Machine model:
* time stamps are exact rationals (`ℚ`), passed explicitly where the
  Python code reads `time.time()`;
* calls into the `keyboard` actuator are recorded as an explicit event
  trace (`Event`), in the order the Python code issues them;
* the Python `set` `currently_pressed` is modelled as a duplicate-free
  `List String` (insertion skips keys already present, mirroring set
  semantics); iteration order is the list order;
* the `threading.Timer` of `_schedule_release` is modelled as a stored
  deadline (`release_timer`), and the timer callback `_auto_release`
  is an explicit step that may fire at any time;
* exceptions raised by the actuator are absorbed at the call site in
  the Python code (`try ... except: pass`), so an actuator call is
  modelled as always producing its event; the shape-mismatch paths
  (e.g. `keyboard.press` applied to a list) raise before any state
  update and are modelled as producing no event and no state change.
-/

unseal Rat.add Rat.sub Rat.mul Rat.inv Rat.ofScientific

namespace IRKeybridge

/-- Calls the engine makes to the outside world, in order. -/
inductive Event where
  | press (k : String)
  | release (k : String)
  | pressAndRelease (k : String)
  | stopCb
  | unhookAll
deriving DecidableEq, Repr

/-- The `ActionType` enumeration from `config_manager.py`. -/
inductive ActionType where
  | single
  | combo
  | sequence
  | special
deriving DecidableEq, Repr

/-- The dynamically shaped `keys` field of a mapping: either one string or a
list of strings (Python `Union[str, List[str]]`). -/
inductive Keys where
  | str (s : String)
  | list (l : List String)
deriving DecidableEq, Repr

/-- Structure `KeyMapping` from `config_manager.py`. -/
structure KeyMapping where
  action_type : ActionType
  keys : Keys
  description : String
deriving DecidableEq, Repr

/-- The mutable fields of the Python `KeyMapper` object.  `stop_cb` records
whether a stop callback has been installed (`set_callbacks`). -/
structure KMState where
  running : Bool
  currently_pressed : List String
  last_code : Option String
  last_mapping : Option KeyMapping
  last_code_time : ℚ
  mappings : List (String × KeyMapping)
  stop_cb : Bool
  initial_repeat_delay : ℚ
  repeat_rate : ℚ
  release_timeout : ℚ
  first_repeat_time : Option ℚ
  last_repeat_action_time : ℚ
  repeat_started : Bool
  ghost_key_enabled : Bool
  single_tapping_enabled : Bool
  repeat_enabled : Bool
  release_timer : Option ℚ
deriving DecidableEq, Repr

/-- State after `KeyMapper.__init__` followed by `set_mappings maps`. -/
def initState (maps : List (String × KeyMapping)) : KMState where
  running := true
  currently_pressed := []
  last_code := none
  last_mapping := none
  last_code_time := 0
  mappings := maps
  stop_cb := false
  initial_repeat_delay := 3/10
  repeat_rate := 9/1000
  release_timeout := 12/100
  first_repeat_time := none
  last_repeat_action_time := 0
  repeat_started := false
  ghost_key_enabled := false
  single_tapping_enabled := false
  repeat_enabled := true
  release_timer := none

/-- Exact-string dictionary lookup, as `self.mappings.get(ir_code)`. -/
def getMapping : List (String × KeyMapping) → String → Option KeyMapping
  | [], _ => none
  | (k, m) :: rest, c => if k = c then some m else getMapping rest c

/-- Python `set.add`: insert a key unless already present. -/
def addKey (l : List String) (k : String) : List String :=
  if k ∈ l then l else l ++ [k]

/-- Method `KeyMapper._release_all`: release every tracked key, clear the set,
then `keyboard.unhook_all()` (the unhook happens unconditionally). -/
def release_all (s : KMState) : KMState × List Event :=
  ({ s with currently_pressed := [] },
    s.currently_pressed.map Event.release ++ [Event.unhookAll])

/-- Method `KeyMapper._schedule_release`: cancel any pending timer and arm a fresh
one that fires `release_timeout` after `now`. -/
def schedule_release (s : KMState) (now : ℚ) : KMState :=
  { s with release_timer := some (now + s.release_timeout) }

/-- Method `KeyMapper._reset_repeat_state`. -/
def reset_repeat_state (s : KMState) : KMState :=
  { s with first_repeat_time := none, repeat_started := false,
           last_repeat_action_time := 0, last_code := none, last_mapping := none }

/-- Method `KeyMapper._auto_release`, the timer callback, invoked at time `now`. -/
def auto_release (s : KMState) (now : ℚ) : KMState × List Event :=
  if now - s.last_code_time ≥ s.release_timeout - 1/100 then
    let r := release_all s
    (reset_repeat_state r.1, r.2)
  else (s, [])

/-- Method `KeyMapper._execute_sequence`: press-and-release each key in order. -/
def execute_sequence (m : KeyMapping) : List Event :=
  match m.keys with
  | .list l => l.map Event.pressAndRelease
  | .str k => [Event.pressAndRelease k]

/-- Method `KeyMapper._execute_tap`.  A `single` mapping whose `keys` is a list makes
`keyboard.press_and_release` raise before any effect (absorbed by the caller),
and a `special` mapping matches none of the branches. -/
def execute_tap (m : KeyMapping) : List Event :=
  match m.action_type with
  | .single =>
    match m.keys with
    | .str k => [Event.pressAndRelease k]
    | .list _ => []
  | .combo =>
    match m.keys with
    | .list l => [Event.pressAndRelease (String.intercalate "+" l)]
    | .str k => [Event.pressAndRelease k]
  | .sequence => execute_sequence m
  | .special => []

/-- Method `KeyMapper._execute_initial_press`: press the mapping's key(s) and record
them in `currently_pressed`; in single-tapping mode everything is a tap and
nothing is recorded.  A `single` mapping with list-shaped keys raises inside
`keyboard.press` before the `add`, hence no event and no record. -/
def execute_initial_press (s : KMState) (m : KeyMapping) : KMState × List Event :=
  if s.single_tapping_enabled then (s, execute_tap m)
  else
    match m.action_type with
    | .single =>
      match m.keys with
      | .str k => ({ s with currently_pressed := addKey s.currently_pressed k },
                   [Event.press k])
      | .list _ => (s, [])
    | .combo =>
      match m.keys with
      | .list l => ({ s with currently_pressed := l.foldl addKey s.currently_pressed },
                    l.map Event.press)
      | .str k => ({ s with currently_pressed := addKey s.currently_pressed k },
                   [Event.press k])
    | .sequence => (s, execute_sequence m)
    | .special => (s, [])

/-- Method `KeyMapper._execute_repeat_action`: release-then-press to force a fresh
edge; never touches `currently_pressed`. -/
def execute_repeat_action (s : KMState) (m : KeyMapping) : List Event :=
  if s.single_tapping_enabled then execute_tap m
  else
    match m.action_type with
    | .single =>
      match m.keys with
      | .str k => [Event.release k, Event.press k]
      | .list _ => []
    | .combo =>
      match m.keys with
      | .list l => l.map Event.release ++ l.map Event.press
      | .str k => [Event.release k, Event.press k]
    | .sequence => execute_sequence m
    | .special => []

/-- Method `KeyMapper._handle_special`.  Note `"stop"` only fires when a stop
callback is installed (`if action == "stop" and self.stop_callback`); with no
callback every branch fails and the method returns `False`.  A list-shaped
`keys` value equals none of the control-name strings. -/
def handle_special (s : KMState) (action : Keys) : KMState × List Event × Bool :=
  match action with
  | .str a =>
    if a = "stop" then
      if s.stop_cb then (s, [Event.stopCb], true) else (s, [], false)
    else if a = "toggle_ghost" then
      ({ s with ghost_key_enabled := !s.ghost_key_enabled }, [], true)
    else if a = "toggle_tap" then
      ({ s with single_tapping_enabled := !s.single_tapping_enabled }, [], true)
    else if a = "toggle_repeat" then
      ({ s with repeat_enabled := !s.repeat_enabled }, [], true)
    else (s, [], false)
  | .list _ => (s, [], false)

/-- Method `KeyMapper._handle_repeat`. -/
def handle_repeat (s : KMState) (now : ℚ) : KMState × List Event × Bool :=
  match s.last_code, s.last_mapping with
  | some _, some m =>
    let s1 := schedule_release { s with last_code_time := now } now
    if s1.repeat_enabled = false then (s1, [], true)
    else
      match s1.first_repeat_time with
      | none => ({ s1 with first_repeat_time := some now }, [], true)
      | some frt =>
        if s1.repeat_started = false then
          if now - frt ≥ s1.initial_repeat_delay then
            ({ s1 with repeat_started := true, last_repeat_action_time := now },
             execute_repeat_action s1 m, true)
          else (s1, [], true)
        else
          if now - s1.last_repeat_action_time ≥ s1.repeat_rate then
            ({ s1 with last_repeat_action_time := now },
             execute_repeat_action s1 m, true)
          else (s1, [], true)
  | _, _ => (s, [], false)

/-- Method `KeyMapper.process_code`, with `now` standing for `time.time()`. -/
def process_code (s : KMState) (ir_code : String) (now : ℚ) :
    KMState × List Event × Bool :=
  if s.running = false then (s, [], false)
  else if ir_code = "REPEAT" then handle_repeat s now
  else
    match getMapping s.mappings ir_code with
    | none => (s, [], false)
    | some m =>
      if m.action_type = .special then handle_special s m.keys
      else
        let is_new_button : Bool := decide (s.last_code ≠ some ir_code)
        let is_after_timeout : Bool := decide (now - s.last_code_time > s.release_timeout)
        if is_new_button || is_after_timeout then
          let r1 := if is_new_button && !s.currently_pressed.isEmpty
                    then release_all s else (s, [])
          let s2 := reset_repeat_state r1.1
          let r2 := execute_initial_press s2 m
          let s4 := { r2.1 with last_code := some ir_code,
                                last_mapping := some m, last_code_time := now }
          (schedule_release s4 now, r1.2 ++ r2.2, true)
        else (s, [], false)

/-- Method `KeyMapper.disable`. -/
def disable (s : KMState) : KMState :=
  { s with running := false }

/-- Method `KeyMapper.cleanup`: cancel the timer, reset repeat state, release all. -/
def cleanup (s : KMState) : KMState × List Event :=
  release_all (reset_repeat_state { s with release_timer := none })

/-- One externally triggered engine step: a `process_code` call, the release
timer firing, a `cleanup` call, or a `disable` call. -/
inductive Step where
  | proc (code : String) (t : ℚ)
  | timer (t : ℚ)
  | clean
  | dis
deriving DecidableEq, Repr

/-- Run one step, returning the new state and the actuator events emitted. -/
def stepRun (s : KMState) : Step → KMState × List Event
  | .proc c t => ((process_code s c t).1, (process_code s c t).2.1)
  | .timer t => auto_release s t
  | .clean => cleanup s
  | .dis => (disable s, [])

/-- Run a list of steps, concatenating the emitted events. -/
def runSteps (s : KMState) : List Step → KMState × List Event
  | [] => (s, [])
  | st :: rest =>
    ((runSteps (stepRun s st).1 rest).1,
      (stepRun s st).2 ++ (runSteps (stepRun s st).1 rest).2)

/-- Engine states reachable, within one session, from a freshly constructed
mapper loaded with table `maps`. -/
def Reachable (maps : List (String × KeyMapping)) (s : KMState) : Prop :=
  ∃ steps : List Step, (runSteps (initState maps) steps).1 = s

/-- Run a list of `process_code` calls `(code, time)`. -/
def runProcs (s : KMState) : List (String × ℚ) → KMState × List Event
  | [] => (s, [])
  | (c, t) :: rest =>
    ((runProcs (process_code s c t).1 rest).1,
      (process_code s c t).2.1 ++ (runProcs (process_code s c t).1 rest).2)

/-- Is the event a bare `press`? -/
def isPress : Event → Bool
  | .press _ => true
  | _ => false

/-- Is the event a bare `release`? -/
def isRelease : Event → Bool
  | .release _ => true
  | _ => false

/-- Is the event a key actuator call (press, release, or press-and-release)? -/
def isKeyEvent : Event → Bool
  | .press _ => true
  | .release _ => true
  | .pressAndRelease _ => true
  | _ => false

/-- The keys named by a mapping, as a list. -/
def keysOf (m : KeyMapping) : List String :=
  match m.keys with
  | .str k => [k]
  | .list l => l

/-- Demonstration mapping table used in concrete scenarios. -/
def demoMaps : List (String × KeyMapping) :=
  [("0x1", ⟨.single, .str "a", "Letter A"⟩),
   ("0x2", ⟨.single, .str "b", "Letter B"⟩),
   ("0x3", ⟨.combo, .list ["ctrl", "c"], "Copy"⟩),
   ("0x4", ⟨.sequence, .list ["a", "b"], "Seq"⟩),
   ("0x5", ⟨.special, .str "toggle_ghost", "Toggle ghost"⟩),
   ("0x6", ⟨.special, .str "bogus", "Unknown"⟩)]

/-! ### Basic lemmas about the pressed-key set -/

theorem mem_addKey {l : List String} {k x : String} :
    x ∈ addKey l k ↔ x ∈ l ∨ x = k := by
  unfold addKey
  split
  · rename_i hk
    constructor
    · exact fun h => Or.inl h
    · rintro (h | rfl)
      · exact h
      · exact hk
  · simp

theorem nodup_addKey {l : List String} {k : String} (h : l.Nodup) :
    (addKey l k).Nodup := by
  unfold addKey
  split
  · exact h
  · rename_i hk
    simp [List.nodup_append, h, hk]

theorem mem_foldl_addKey {l : List String} {acc : List String} {x : String} :
    x ∈ l.foldl addKey acc ↔ x ∈ acc ∨ x ∈ l := by
  induction l generalizing acc with
  | nil => simp
  | cons a l ih =>
    simp only [List.foldl_cons, ih, mem_addKey, List.mem_cons]
    tauto

theorem nodup_foldl_addKey {l : List String} {acc : List String} (h : acc.Nodup) :
    (l.foldl addKey acc).Nodup := by
  induction l generalizing acc with
  | nil => exact h
  | cons a l ih => exact ih (nodup_addKey h)

/-! ### Shape lemmas: which state fields each operation can change -/

/-- Helper `_handle_repeat` only touches timing/repeat bookkeeping fields. -/
theorem handle_repeat_shape (s : KMState) (now : ℚ) :
    ∃ lct frt started lrat rtimer,
      (handle_repeat s now).1 =
        { s with last_code_time := lct, first_repeat_time := frt,
                 repeat_started := started, last_repeat_action_time := lrat,
                 release_timer := rtimer } := by
  unfold handle_repeat schedule_release
  split
  · dsimp only
    split
    · exact ⟨_, _, _, _, _, rfl⟩
    · split
      · exact ⟨_, _, _, _, _, rfl⟩
      · split
        · split
          · exact ⟨_, _, _, _, _, rfl⟩
          · exact ⟨_, _, _, _, _, rfl⟩
        · split
          · exact ⟨_, _, _, _, _, rfl⟩
          · exact ⟨_, _, _, _, _, rfl⟩
  · exact ⟨s.last_code_time, s.first_repeat_time, s.repeat_started,
      s.last_repeat_action_time, s.release_timer, rfl⟩

/-- Helper `_handle_special` only touches the three mode flags, emits at most the
stop callback, and never emits a key event. -/
theorem handle_special_shape (s : KMState) (k : Keys) :
    ∃ g tp rp,
      (handle_special s k).1 =
        { s with ghost_key_enabled := g, single_tapping_enabled := tp,
                 repeat_enabled := rp } ∧
      ∀ e ∈ (handle_special s k).2.1, e = Event.stopCb := by
  unfold handle_special
  cases k with
  | str a =>
    dsimp only
    split_ifs with h1 h2 h3 h4 h5 <;>
      refine ⟨_, _, _, rfl, ?_⟩ <;>
      intro e he
    · rw [List.mem_singleton] at he
      exact he
    all_goals exact absurd he (List.not_mem_nil e)
  | list l =>
    dsimp only
    refine ⟨s.ghost_key_enabled, s.single_tapping_enabled, s.repeat_enabled, rfl, ?_⟩
    intro e he
    exact absurd he (List.not_mem_nil e)

/-- Helper `_execute_initial_press` only adds keys of the mapping to
`currently_pressed`, each added key also being emitted as a `press` event. -/
theorem execute_initial_press_shape (s : KMState) (m : KeyMapping) :
    ∃ P, (execute_initial_press s m).1 = { s with currently_pressed := P } ∧
      (∀ x ∈ s.currently_pressed, x ∈ P) ∧
      (∀ x ∈ P, x ∈ s.currently_pressed ∨
        (x ∈ keysOf m ∧ Event.press x ∈ (execute_initial_press s m).2)) ∧
      (s.currently_pressed.Nodup → P.Nodup) := by
  unfold execute_initial_press
  by_cases ht : s.single_tapping_enabled = true
  · rw [if_pos ht]
    exact ⟨s.currently_pressed, rfl, fun x hx => hx, fun x hx => Or.inl hx, fun h => h⟩
  · rw [if_neg ht]
    cases hat : m.action_type with
    | single =>
      cases hk : m.keys with
      | str k =>
        refine ⟨addKey s.currently_pressed k, rfl, ?_, ?_, fun h => nodup_addKey h⟩
        · exact fun x hx => mem_addKey.mpr (Or.inl hx)
        · intro x hx
          rcases mem_addKey.mp hx with h | rfl
          · exact Or.inl h
          · exact Or.inr ⟨by simp [keysOf, hk], by simp⟩
      | list l =>
        refine ⟨s.currently_pressed, by simp, fun x hx => hx, fun x hx => Or.inl hx, fun h => h⟩
    | combo =>
      cases hk : m.keys with
      | str k =>
        refine ⟨addKey s.currently_pressed k, rfl, ?_, ?_, fun h => nodup_addKey h⟩
        · exact fun x hx => mem_addKey.mpr (Or.inl hx)
        · intro x hx
          rcases mem_addKey.mp hx with h | rfl
          · exact Or.inl h
          · exact Or.inr ⟨by simp [keysOf, hk], by simp⟩
      | list l =>
        refine ⟨l.foldl addKey s.currently_pressed, rfl, ?_, ?_,
          fun h => nodup_foldl_addKey h⟩
        · exact fun x hx => mem_foldl_addKey.mpr (Or.inl hx)
        · intro x hx
          rcases mem_foldl_addKey.mp hx with h | h
          · exact Or.inl h
          · exact Or.inr ⟨by simp [keysOf, hk, h], by simp [h]⟩
    | sequence =>
      refine ⟨s.currently_pressed, by simp, fun x hx => hx, fun x hx => Or.inl hx, fun h => h⟩
    | special =>
      refine ⟨s.currently_pressed, by simp, fun x hx => hx, fun x hx => Or.inl hx, fun h => h⟩

/-! ### Branch lemmas for `process_code` -/

theorem pc_not_running {s : KMState} {c : String} {now : ℚ}
    (h : s.running = false) : process_code s c now = (s, [], false) := by
  unfold process_code
  rw [if_pos h]

theorem pc_repeat_eq {s : KMState} {now : ℚ} (h : s.running = true) :
    process_code s "REPEAT" now = handle_repeat s now := by
  unfold process_code
  rw [if_neg (by simp [h]), if_pos rfl]

theorem pc_unmapped {s : KMState} {c : String} {now : ℚ}
    (hr : s.running = true) (hc : c ≠ "REPEAT")
    (hm : getMapping s.mappings c = none) :
    process_code s c now = (s, [], false) := by
  unfold process_code
  rw [if_neg (by simp [hr]), if_neg hc, hm]

theorem pc_special_eq {s : KMState} {c : String} {now : ℚ} {m : KeyMapping}
    (hr : s.running = true) (hc : c ≠ "REPEAT")
    (hm : getMapping s.mappings c = some m) (hsp : m.action_type = .special) :
    process_code s c now = handle_special s m.keys := by
  unfold process_code
  rw [if_neg (by simp [hr]), if_neg hc, hm]
  dsimp only
  rw [if_pos hsp]

theorem pc_bounce {s : KMState} {c : String} {now : ℚ} {m : KeyMapping}
    (hr : s.running = true) (hc : c ≠ "REPEAT")
    (hm : getMapping s.mappings c = some m) (hns : m.action_type ≠ .special)
    (hlast : s.last_code = some c)
    (ht : ¬ now - s.last_code_time > s.release_timeout) :
    process_code s c now = (s, [], false) := by
  unfold process_code
  rw [if_neg (by simp [hr]), if_neg hc, hm]
  dsimp only
  rw [if_neg hns, if_neg (by simp [hlast, ht])]

/-- The new-press branch in the case where a genuinely different button is
pressed while keys are held: everything is released (and unhooked) before the
new mapping's initial press. -/
theorem pc_press_release {s : KMState} {c : String} {now : ℚ} {m : KeyMapping}
    (hr : s.running = true) (hc : c ≠ "REPEAT")
    (hm : getMapping s.mappings c = some m) (hns : m.action_type ≠ .special)
    (hnew : s.last_code ≠ some c) (hheld : s.currently_pressed ≠ []) :
    process_code s c now =
      (schedule_release
        { (execute_initial_press (reset_repeat_state { s with currently_pressed := [] }) m).1
          with last_code := some c, last_mapping := some m, last_code_time := now } now,
       (s.currently_pressed.map Event.release ++ [Event.unhookAll]) ++
         (execute_initial_press (reset_repeat_state { s with currently_pressed := [] }) m).2,
       true) := by
  unfold process_code
  rw [if_neg (by simp [hr]), if_neg hc, hm]
  dsimp only
  rw [if_neg hns, if_pos (by simp [hnew]),
    if_pos (by simp [hnew, List.isEmpty_iff, hheld])]
  rfl

/-- The new-press branch in the case where nothing needs releasing first
(same button after the timeout, or no key currently held). -/
theorem pc_press_norelease {s : KMState} {c : String} {now : ℚ} {m : KeyMapping}
    (hr : s.running = true) (hc : c ≠ "REPEAT")
    (hm : getMapping s.mappings c = some m) (hns : m.action_type ≠ .special)
    (hcond : s.last_code ≠ some c ∨ now - s.last_code_time > s.release_timeout)
    (hno : s.last_code = some c ∨ s.currently_pressed = []) :
    process_code s c now =
      (schedule_release
        { (execute_initial_press (reset_repeat_state s) m).1
          with last_code := some c, last_mapping := some m, last_code_time := now } now,
       (execute_initial_press (reset_repeat_state s) m).2,
       true) := by
  unfold process_code
  rw [if_neg (by simp [hr]), if_neg hc, hm]
  dsimp only
  rw [if_neg hns, if_pos (by rcases hcond with h | h <;> simp [h]),
    if_neg (by rcases hno with h | h <;> simp [h, List.isEmpty_iff])]
  rfl

/-! ### Key-lifecycle lemmas -/

/-- Any key tracked after a `process_code` call was either already tracked or
was passed to `press` during the call. -/
theorem pc_pressed_origin {s : KMState} {c : String} {now : ℚ} {k : String}
    (h : k ∈ (process_code s c now).1.currently_pressed) :
    k ∈ s.currently_pressed ∨ Event.press k ∈ (process_code s c now).2.1 := by
  by_cases hr : s.running = true
  · by_cases hc : c = "REPEAT"
    · subst hc
      rw [pc_repeat_eq hr] at h
      obtain ⟨lct, frt, st, lrat, rt, hsh⟩ := handle_repeat_shape s now
      rw [hsh] at h
      exact Or.inl h
    · cases hm : getMapping s.mappings c with
      | none =>
        rw [pc_unmapped hr hc hm] at h
        exact Or.inl h
      | some m =>
        by_cases hsp : m.action_type = .special
        · rw [pc_special_eq hr hc hm hsp] at h
          obtain ⟨g, tp, rp, hsh, _⟩ := handle_special_shape s m.keys
          rw [hsh] at h
          exact Or.inl h
        · by_cases hnew : s.last_code = some c
          · by_cases htt : now - s.last_code_time > s.release_timeout
            · rw [pc_press_norelease hr hc hm hsp (Or.inr htt) (Or.inl hnew)] at h ⊢
              obtain ⟨P, hP, _, hPmem, _⟩ :=
                execute_initial_press_shape (reset_repeat_state s) m
              rw [show (schedule_release
                  { (execute_initial_press (reset_repeat_state s) m).1
                    with last_code := some c, last_mapping := some m,
                         last_code_time := now } now).currently_pressed =
                  (execute_initial_press (reset_repeat_state s) m).1.currently_pressed
                from rfl, hP] at h
              rcases hPmem k h with hk | ⟨_, hk⟩
              · exact Or.inl hk
              · exact Or.inr hk
            · rw [pc_bounce hr hc hm hsp hnew htt] at h
              exact Or.inl h
          · by_cases hheld : s.currently_pressed = []
            · rw [pc_press_norelease hr hc hm hsp (Or.inl hnew) (Or.inr hheld)] at h ⊢
              obtain ⟨P, hP, _, hPmem, _⟩ :=
                execute_initial_press_shape (reset_repeat_state s) m
              rw [show (schedule_release
                  { (execute_initial_press (reset_repeat_state s) m).1
                    with last_code := some c, last_mapping := some m,
                         last_code_time := now } now).currently_pressed =
                  (execute_initial_press (reset_repeat_state s) m).1.currently_pressed
                from rfl, hP] at h
              rcases hPmem k h with hk | ⟨_, hk⟩
              · exact Or.inl hk
              · exact Or.inr hk
            · rw [pc_press_release hr hc hm hsp hnew hheld] at h ⊢
              obtain ⟨P, hP, _, hPmem, _⟩ :=
                execute_initial_press_shape
                  (reset_repeat_state { s with currently_pressed := [] }) m
              rw [show (schedule_release
                  { (execute_initial_press
                      (reset_repeat_state { s with currently_pressed := [] }) m).1
                    with last_code := some c, last_mapping := some m,
                         last_code_time := now } now).currently_pressed =
                  (execute_initial_press
                      (reset_repeat_state { s with currently_pressed := [] }) m).1.currently_pressed
                from rfl, hP] at h
              rcases hPmem k h with hk | ⟨_, hk⟩
              · exact absurd hk (List.not_mem_nil k)
              · exact Or.inr (List.mem_append_right _ hk)
  · rw [pc_not_running (Bool.not_eq_true _ ▸ hr)] at h
    exact Or.inl h

/-- Any key tracked before a `process_code` call is either still tracked
afterwards or was passed to `release` during the call. -/
theorem pc_stay_or_release {s : KMState} {c : String} {now : ℚ} {k : String}
    (h : k ∈ s.currently_pressed) :
    k ∈ (process_code s c now).1.currently_pressed ∨
      Event.release k ∈ (process_code s c now).2.1 := by
  by_cases hr : s.running = true
  · by_cases hc : c = "REPEAT"
    · subst hc
      rw [pc_repeat_eq hr]
      obtain ⟨lct, frt, st, lrat, rt, hsh⟩ := handle_repeat_shape s now
      rw [hsh]
      exact Or.inl h
    · cases hm : getMapping s.mappings c with
      | none =>
        rw [pc_unmapped hr hc hm]
        exact Or.inl h
      | some m =>
        by_cases hsp : m.action_type = .special
        · rw [pc_special_eq hr hc hm hsp]
          obtain ⟨g, tp, rp, hsh, _⟩ := handle_special_shape s m.keys
          rw [hsh]
          exact Or.inl h
        · by_cases hnew : s.last_code = some c
          · by_cases htt : now - s.last_code_time > s.release_timeout
            · rw [pc_press_norelease hr hc hm hsp (Or.inr htt) (Or.inl hnew)]
              obtain ⟨P, hP, hPsub, _, _⟩ :=
                execute_initial_press_shape (reset_repeat_state s) m
              refine Or.inl ?_
              rw [show (schedule_release
                  { (execute_initial_press (reset_repeat_state s) m).1
                    with last_code := some c, last_mapping := some m,
                         last_code_time := now } now).currently_pressed =
                  (execute_initial_press (reset_repeat_state s) m).1.currently_pressed
                from rfl, hP]
              exact hPsub k h
            · rw [pc_bounce hr hc hm hsp hnew htt]
              exact Or.inl h
          · by_cases hheld : s.currently_pressed = []
            · exact absurd (hheld ▸ h) (List.not_mem_nil k)
            · rw [pc_press_release hr hc hm hsp hnew hheld]
              exact Or.inr (List.mem_append_left _
                (List.mem_append_left _ (List.mem_map_of_mem Event.release h)))
  · rw [pc_not_running (Bool.not_eq_true _ ▸ hr)]
    exact Or.inl h

/-- Function `process_code` keeps the tracked-key list duplicate-free. -/
theorem pc_nodup {s : KMState} {c : String} {now : ℚ}
    (h : s.currently_pressed.Nodup) :
    (process_code s c now).1.currently_pressed.Nodup := by
  by_cases hr : s.running = true
  · by_cases hc : c = "REPEAT"
    · subst hc
      rw [pc_repeat_eq hr]
      obtain ⟨lct, frt, st, lrat, rt, hsh⟩ := handle_repeat_shape s now
      rw [hsh]
      exact h
    · cases hm : getMapping s.mappings c with
      | none =>
        rw [pc_unmapped hr hc hm]
        exact h
      | some m =>
        by_cases hsp : m.action_type = .special
        · rw [pc_special_eq hr hc hm hsp]
          obtain ⟨g, tp, rp, hsh, _⟩ := handle_special_shape s m.keys
          rw [hsh]
          exact h
        · by_cases hnew : s.last_code = some c
          · by_cases htt : now - s.last_code_time > s.release_timeout
            · rw [pc_press_norelease hr hc hm hsp (Or.inr htt) (Or.inl hnew)]
              obtain ⟨P, hP, _, _, hPnd⟩ :=
                execute_initial_press_shape (reset_repeat_state s) m
              rw [show (schedule_release
                  { (execute_initial_press (reset_repeat_state s) m).1
                    with last_code := some c, last_mapping := some m,
                         last_code_time := now } now).currently_pressed =
                  (execute_initial_press (reset_repeat_state s) m).1.currently_pressed
                from rfl, hP]
              exact hPnd h
            · rw [pc_bounce hr hc hm hsp hnew htt]
              exact h
          · by_cases hheld : s.currently_pressed = []
            · rw [pc_press_norelease hr hc hm hsp (Or.inl hnew) (Or.inr hheld)]
              obtain ⟨P, hP, _, _, hPnd⟩ :=
                execute_initial_press_shape (reset_repeat_state s) m
              rw [show (schedule_release
                  { (execute_initial_press (reset_repeat_state s) m).1
                    with last_code := some c, last_mapping := some m,
                         last_code_time := now } now).currently_pressed =
                  (execute_initial_press (reset_repeat_state s) m).1.currently_pressed
                from rfl, hP]
              exact hPnd h
            · rw [pc_press_release hr hc hm hsp hnew hheld]
              obtain ⟨P, hP, _, _, hPnd⟩ :=
                execute_initial_press_shape
                  (reset_repeat_state { s with currently_pressed := [] }) m
              rw [show (schedule_release
                  { (execute_initial_press
                      (reset_repeat_state { s with currently_pressed := [] }) m).1
                    with last_code := some c, last_mapping := some m,
                         last_code_time := now } now).currently_pressed =
                  (execute_initial_press
                      (reset_repeat_state { s with currently_pressed := [] }) m).1.currently_pressed
                from rfl, hP]
              exact hPnd List.nodup_nil
  · rw [pc_not_running (Bool.not_eq_true _ ▸ hr)]
    exact h

/-- Function `cleanup` passes every tracked key to `release`. -/
theorem cleanup_releases {s : KMState} {k : String}
    (h : k ∈ s.currently_pressed) : Event.release k ∈ (cleanup s).2 :=
  List.mem_append_left _ (List.mem_map_of_mem Event.release h)

/-- After `cleanup` no key is tracked. -/
theorem cleanup_pressed (s : KMState) : (cleanup s).1.currently_pressed = [] := rfl

/-- Function `cleanup` on a state with no tracked keys emits only the unhook call. -/
theorem cleanup_empty {s : KMState} (h : s.currently_pressed = []) :
    (cleanup s).2 = [Event.unhookAll] := by
  unfold cleanup release_all reset_repeat_state
  simp [h]

theorem runProcs_pressed_origin {calls : List (String × ℚ)} {s : KMState} {k : String}
    (h : k ∈ (runProcs s calls).1.currently_pressed) :
    k ∈ s.currently_pressed ∨ Event.press k ∈ (runProcs s calls).2 := by
  induction calls generalizing s with
  | nil => exact Or.inl h
  | cons p rest ih =>
    obtain ⟨c, t⟩ := p
    rcases ih h with h1 | h1
    · rcases pc_pressed_origin h1 with h2 | h2
      · exact Or.inl h2
      · exact Or.inr (List.mem_append_left _ h2)
    · exact Or.inr (List.mem_append_right _ h1)

theorem runProcs_stay_or_release {calls : List (String × ℚ)} {s : KMState} {k : String}
    (h : k ∈ s.currently_pressed) :
    k ∈ (runProcs s calls).1.currently_pressed ∨
      Event.release k ∈ (runProcs s calls).2 := by
  induction calls generalizing s with
  | nil => exact Or.inl h
  | cons p rest ih =>
    obtain ⟨c, t⟩ := p
    rcases @pc_stay_or_release s c t k h with h1 | h1
    · rcases ih h1 with h2 | h2
      · exact Or.inl h2
      · exact Or.inr (List.mem_append_right _ h2)
    · exact Or.inr (List.mem_append_left _ h1)

/-! ### The single-hold invariant -/

/-- Either the engine is idle (no last code, no tracked keys) or every
tracked key belongs to the mapping of the one most recently pressed button. -/
def HoldInv (s : KMState) : Prop :=
  (s.last_code = none ∧ s.last_mapping = none ∧ s.currently_pressed = []) ∨
  (∃ c m, s.last_code = some c ∧ s.last_mapping = some m ∧
    getMapping s.mappings c = some m ∧ ∀ x ∈ s.currently_pressed, x ∈ keysOf m)

theorem hold_inv_of_fields {su s : KMState}
    (h1 : su.last_code = s.last_code) (h2 : su.last_mapping = s.last_mapping)
    (h3 : su.currently_pressed = s.currently_pressed) (h4 : su.mappings = s.mappings)
    (h : HoldInv s) : HoldInv su := by
  unfold HoldInv at h ⊢
  rw [h1, h2, h3, h4]
  exact h

theorem pc_hold_inv {s : KMState} {c : String} {now : ℚ}
    (h : HoldInv s) : HoldInv (process_code s c now).1 := by
  by_cases hr : s.running = true
  · by_cases hc : c = "REPEAT"
    · subst hc
      rw [pc_repeat_eq hr]
      obtain ⟨lct, frt, st, lrat, rt, hsh⟩ := handle_repeat_shape s now
      rw [hsh]
      exact hold_inv_of_fields rfl rfl rfl rfl h
    · cases hm : getMapping s.mappings c with
      | none =>
        rw [pc_unmapped hr hc hm]
        exact h
      | some m =>
        by_cases hsp : m.action_type = .special
        · rw [pc_special_eq hr hc hm hsp]
          obtain ⟨g, tp, rp, hsh, _⟩ := handle_special_shape s m.keys
          rw [hsh]
          exact hold_inv_of_fields rfl rfl rfl rfl h
        · by_cases hnew : s.last_code = some c
          · by_cases htt : now - s.last_code_time > s.release_timeout
            · rw [pc_press_norelease hr hc hm hsp (Or.inr htt) (Or.inl hnew)]
              obtain ⟨P, hP, _, hPmem, _⟩ :=
                execute_initial_press_shape (reset_repeat_state s) m
              refine Or.inr ⟨c, m, rfl, rfl, ?_, ?_⟩
              · rw [show (schedule_release
                    { (execute_initial_press (reset_repeat_state s) m).1
                      with last_code := some c, last_mapping := some m,
                           last_code_time := now } now).mappings =
                    (execute_initial_press (reset_repeat_state s) m).1.mappings
                  from rfl, hP]
                exact hm
              · intro x hx
                rw [show (schedule_release
                    { (execute_initial_press (reset_repeat_state s) m).1
                      with last_code := some c, last_mapping := some m,
                           last_code_time := now } now).currently_pressed =
                    (execute_initial_press (reset_repeat_state s) m).1.currently_pressed
                  from rfl, hP] at hx
                rcases hPmem x hx with hold | ⟨hkeys, _⟩
                · rcases h with ⟨hlc, _, _⟩ | ⟨c', m', hlc, _, hlook, hsub⟩
                  · rw [hnew] at hlc
                    exact absurd hlc (Option.some_ne_none c)
                  · have hcc : c' = c := by
                      rw [hnew] at hlc
                      exact (Option.some.injEq _ _ ▸ hlc).symm ▸ rfl
                    subst hcc
                    rw [hlook] at hm
                    cases hm
                    exact hsub x hold
                · exact hkeys
            · rw [pc_bounce hr hc hm hsp hnew htt]
              exact h
          · by_cases hheld : s.currently_pressed = []
            · rw [pc_press_norelease hr hc hm hsp (Or.inl hnew) (Or.inr hheld)]
              obtain ⟨P, hP, _, hPmem, _⟩ :=
                execute_initial_press_shape (reset_repeat_state s) m
              refine Or.inr ⟨c, m, rfl, rfl, ?_, ?_⟩
              · rw [show (schedule_release
                    { (execute_initial_press (reset_repeat_state s) m).1
                      with last_code := some c, last_mapping := some m,
                           last_code_time := now } now).mappings =
                    (execute_initial_press (reset_repeat_state s) m).1.mappings
                  from rfl, hP]
                exact hm
              · intro x hx
                rw [show (schedule_release
                    { (execute_initial_press (reset_repeat_state s) m).1
                      with last_code := some c, last_mapping := some m,
                           last_code_time := now } now).currently_pressed =
                    (execute_initial_press (reset_repeat_state s) m).1.currently_pressed
                  from rfl, hP] at hx
                rcases hPmem x hx with hold | ⟨hkeys, _⟩
                · rw [show (reset_repeat_state s).currently_pressed =
                      s.currently_pressed from rfl, hheld] at hold
                  exact absurd hold (List.not_mem_nil x)
                · exact hkeys
            · rw [pc_press_release hr hc hm hsp hnew hheld]
              obtain ⟨P, hP, _, hPmem, _⟩ :=
                execute_initial_press_shape
                  (reset_repeat_state { s with currently_pressed := [] }) m
              refine Or.inr ⟨c, m, rfl, rfl, ?_, ?_⟩
              · rw [show (schedule_release
                    { (execute_initial_press
                        (reset_repeat_state { s with currently_pressed := [] }) m).1
                      with last_code := some c, last_mapping := some m,
                           last_code_time := now } now).mappings =
                    (execute_initial_press
                        (reset_repeat_state { s with currently_pressed := [] }) m).1.mappings
                  from rfl, hP]
                exact hm
              · intro x hx
                rw [show (schedule_release
                    { (execute_initial_press
                        (reset_repeat_state { s with currently_pressed := [] }) m).1
                      with last_code := some c, last_mapping := some m,
                           last_code_time := now } now).currently_pressed =
                    (execute_initial_press
                        (reset_repeat_state { s with currently_pressed := [] }) m).1.currently_pressed
                  from rfl, hP] at hx
                rcases hPmem x hx with hold | ⟨hkeys, _⟩
                · exact absurd hold (List.not_mem_nil x)
                · exact hkeys
  · rw [pc_not_running (Bool.not_eq_true _ ▸ hr)]
    exact h

theorem auto_release_hold_inv {s : KMState} {t : ℚ}
    (h : HoldInv s) : HoldInv (auto_release s t).1 := by
  unfold auto_release
  split
  · exact Or.inl ⟨rfl, rfl, rfl⟩
  · exact h

theorem cleanup_hold_inv (s : KMState) : HoldInv (cleanup s).1 :=
  Or.inl ⟨rfl, rfl, rfl⟩

theorem step_hold_inv {s : KMState} {st : Step}
    (h : HoldInv s) : HoldInv (stepRun s st).1 := by
  cases st with
  | proc c t => exact pc_hold_inv h
  | timer t => exact auto_release_hold_inv h
  | clean => exact cleanup_hold_inv s
  | dis => exact hold_inv_of_fields rfl rfl rfl rfl h

theorem runSteps_hold_inv {steps : List Step} {s : KMState}
    (h : HoldInv s) : HoldInv (runSteps s steps).1 := by
  induction steps generalizing s with
  | nil => exact h
  | cons st rest ih => exact ih (step_hold_inv h)

theorem reachable_hold_inv {maps : List (String × KeyMapping)} {s : KMState}
    (h : Reachable maps s) : HoldInv s := by
  obtain ⟨steps, hrun⟩ := h
  rw [← hrun]
  exact runSteps_hold_inv (Or.inl ⟨rfl, rfl, rfl⟩)

/-! ### Claim theorems -/

/-- C1: For any finite sequence of `process_code` calls (any tokens, any
times) followed by a single `cleanup()` call, every key name that the engine
passed to the actuator's `press` and recorded in `pressedKeys` (i.e. any key
found in `currently_pressed` at any intermediate point of the run) is
subsequently passed to the actuator's `release`, so no key recorded as
pressed is left unreleased; `pressedKeys` is empty after `cleanup`, and
`cleanup` is safe to call multiple times (a second call emits no key event). -/
theorem no_stuck_keys_after_cleanup (maps : List (String × KeyMapping))
    (pre post : List (String × ℚ)) (k : String)
    (hk : k ∈ (runProcs (initState maps) pre).1.currently_pressed) :
    Event.press k ∈ (runProcs (initState maps) pre).2 ∧
    Event.release k ∈
      ((runProcs (runProcs (initState maps) pre).1 post).2 ++
        (cleanup (runProcs (runProcs (initState maps) pre).1 post).1).2) ∧
    (cleanup (runProcs (runProcs (initState maps) pre).1 post).1).1.currently_pressed
      = [] ∧
    ∀ e ∈ (cleanup (cleanup (runProcs (runProcs (initState maps) pre).1 post).1).1).2,
      e = Event.unhookAll := by
  refine ⟨?_, ?_, cleanup_pressed _, ?_⟩
  · rcases runProcs_pressed_origin hk with h | h
    · exact absurd h (List.not_mem_nil k)
    · exact h
  · rcases @runProcs_stay_or_release post _ _ hk with h | h
    · exact List.mem_append_right _ (cleanup_releases h)
    · exact List.mem_append_left _ h
  · intro e he
    rw [cleanup_empty (cleanup_pressed _), List.mem_singleton] at he
    exact he

theorem no_stuck_keys_after_cleanup_witness :
    Event.press "a" ∈ (runProcs (initState demoMaps) [("0x1", 0)]).2 ∧
    Event.release "a" ∈
      ((runProcs (runProcs (initState demoMaps) [("0x1", 0)]).1 [("0x2", 1)]).2 ++
        (cleanup (runProcs (runProcs (initState demoMaps) [("0x1", 0)]).1
          [("0x2", 1)]).1).2) ∧
    (cleanup (runProcs (runProcs (initState demoMaps) [("0x1", 0)]).1
      [("0x2", 1)]).1).1.currently_pressed = [] ∧
    ∀ e ∈ (cleanup (cleanup (runProcs (runProcs (initState demoMaps) [("0x1", 0)]).1
      [("0x2", 1)]).1).1).2, e = Event.unhookAll :=
  no_stuck_keys_after_cleanup demoMaps [("0x1", 0)] [("0x2", 1)] "a" (by decide)

/-- C2: at most one button's keys are ever held by the engine.  In every
reachable engine state the tracked keys all belong to the one mapping of
`lastMapping` (or nothing is held), and when `process_code` receives a mapped
non-Special code different from `lastCode` while `pressedKeys` is non-empty,
the emitted actuator calls release every currently held key (and unhook)
strictly before any event of the new mapping's initial press. -/
theorem at_most_one_button_held (maps : List (String × KeyMapping)) (s : KMState)
    (hreach : Reachable maps s) :
    ((s.last_code = none ∧ s.last_mapping = none ∧ s.currently_pressed = []) ∨
      (∃ m, s.last_mapping = some m ∧ ∀ x ∈ s.currently_pressed, x ∈ keysOf m)) ∧
    ∀ c m now, s.running = true → c ≠ "REPEAT" →
      getMapping s.mappings c = some m → m.action_type ≠ .special →
      s.last_code ≠ some c → s.currently_pressed ≠ [] →
      ∃ evP, (process_code s c now).2.1 =
          s.currently_pressed.map Event.release ++ [Event.unhookAll] ++ evP ∧
        (process_code s c now).2.2 = true := by
  constructor
  · rcases reachable_hold_inv hreach with h | ⟨c, m, _, h2, _, h4⟩
    · exact Or.inl h
    · exact Or.inr ⟨m, h2, h4⟩
  · intro c m now hr hc hm hsp hnew hheld
    rw [pc_press_release hr hc hm hsp hnew hheld]
    exact ⟨_, by rw [List.append_assoc], rfl⟩

theorem at_most_one_button_held_witness :
    (((runSteps (initState demoMaps) [Step.proc "0x1" 0]).1.last_code = none ∧
        (runSteps (initState demoMaps) [Step.proc "0x1" 0]).1.last_mapping = none ∧
        (runSteps (initState demoMaps) [Step.proc "0x1" 0]).1.currently_pressed = []) ∨
      (∃ m, (runSteps (initState demoMaps) [Step.proc "0x1" 0]).1.last_mapping = some m ∧
        ∀ x ∈ (runSteps (initState demoMaps) [Step.proc "0x1" 0]).1.currently_pressed,
          x ∈ keysOf m)) ∧
    ∀ c m now,
      (runSteps (initState demoMaps) [Step.proc "0x1" 0]).1.running = true →
      c ≠ "REPEAT" →
      getMapping (runSteps (initState demoMaps) [Step.proc "0x1" 0]).1.mappings c = some m →
      m.action_type ≠ .special →
      (runSteps (initState demoMaps) [Step.proc "0x1" 0]).1.last_code ≠ some c →
      (runSteps (initState demoMaps) [Step.proc "0x1" 0]).1.currently_pressed ≠ [] →
      ∃ evP, (process_code (runSteps (initState demoMaps) [Step.proc "0x1" 0]).1 c now).2.1 =
          (runSteps (initState demoMaps) [Step.proc "0x1" 0]).1.currently_pressed.map
            Event.release ++ [Event.unhookAll] ++ evP ∧
        (process_code (runSteps (initState demoMaps) [Step.proc "0x1" 0]).1 c now).2.2 = true :=
  at_most_one_button_held demoMaps (runSteps (initState demoMaps) [Step.proc "0x1" 0]).1
    ⟨[Step.proc "0x1" 0], rfl⟩

/-- A list of release events contains no press event. -/
theorem countP_isPress_map_release (l : List String) :
    (l.map Event.release).countP isPress = 0 := by
  induction l with
  | nil => rfl
  | cons a l ih => simp [List.countP_cons, isPress, ih]

/-- Initial press of a `Single` string-keyed mapping outside tapping mode. -/
theorem eip_single_events {u : KMState} {k d : String}
    (htap : u.single_tapping_enabled = false) :
    (execute_initial_press u ⟨.single, .str k, d⟩).2 = [Event.press k] := by
  unfold execute_initial_press
  rw [if_neg (by simp [htap])]

/-- Field values of the state produced by the new-press branch. -/
theorem press_result_fields (u : KMState) (m : KeyMapping) (c : String) (now : ℚ) :
    (schedule_release
      { (execute_initial_press u m).1 with
          last_code := some c, last_mapping := some m, last_code_time := now } now).running = u.running ∧
    (schedule_release
      { (execute_initial_press u m).1 with
          last_code := some c, last_mapping := some m, last_code_time := now } now).mappings = u.mappings ∧
    (schedule_release
      { (execute_initial_press u m).1 with
          last_code := some c, last_mapping := some m, last_code_time := now } now).release_timeout
      = u.release_timeout ∧
    (schedule_release
      { (execute_initial_press u m).1 with
          last_code := some c, last_mapping := some m, last_code_time := now } now).single_tapping_enabled
      = u.single_tapping_enabled := by
  obtain ⟨P, hP, _, _, _⟩ := execute_initial_press_shape u m
  rw [show (schedule_release
      { (execute_initial_press u m).1 with
          last_code := some c, last_mapping := some m, last_code_time := now } now).running =
      (execute_initial_press u m).1.running from rfl,
    show (schedule_release
      { (execute_initial_press u m).1 with
          last_code := some c, last_mapping := some m, last_code_time := now } now).mappings =
      (execute_initial_press u m).1.mappings from rfl,
    show (schedule_release
      { (execute_initial_press u m).1 with
          last_code := some c, last_mapping := some m, last_code_time := now } now).release_timeout =
      (execute_initial_press u m).1.release_timeout from rfl,
    show (schedule_release
      { (execute_initial_press u m).1 with
          last_code := some c, last_mapping := some m, last_code_time := now } now).single_tapping_enabled =
      (execute_initial_press u m).1.single_tapping_enabled from rfl, hP]
  exact ⟨rfl, rfl, rfl, rfl⟩

/-- When `process_code` succeeds on a mapped non-Special code, it has taken
the new-press branch: the relevant state fields afterwards, and the shape of
the emitted events (possible releases followed by the initial press of the
mapping, executed with the caller's tapping flag). -/
theorem pc_success_fields {s : KMState} {c : String} {now : ℚ} {m : KeyMapping}
    (hr : s.running = true) (hc : c ≠ "REPEAT")
    (hm : getMapping s.mappings c = some m) (hsp : m.action_type ≠ .special)
    (hb : (process_code s c now).2.2 = true) :
    (process_code s c now).1.running = s.running ∧
    (process_code s c now).1.mappings = s.mappings ∧
    (process_code s c now).1.last_code = some c ∧
    (process_code s c now).1.last_mapping = some m ∧
    (process_code s c now).1.last_code_time = now ∧
    (process_code s c now).1.release_timeout = s.release_timeout ∧
    (process_code s c now).1.single_tapping_enabled = s.single_tapping_enabled ∧
    ∃ evR u, (process_code s c now).2.1 = evR ++ (execute_initial_press u m).2 ∧
      evR.countP isPress = 0 ∧
      u.single_tapping_enabled = s.single_tapping_enabled := by
  by_cases hnew : s.last_code = some c
  · by_cases htt : now - s.last_code_time > s.release_timeout
    · rw [pc_press_norelease hr hc hm hsp (Or.inr htt) (Or.inl hnew)]
      obtain ⟨f1, f2, f3, f4⟩ := press_result_fields (reset_repeat_state s) m c now
      exact ⟨f1, f2, rfl, rfl, rfl, f3, f4, [], reset_repeat_state s,
        (List.nil_append _).symm, rfl, rfl⟩
    · rw [pc_bounce hr hc hm hsp hnew htt] at hb
      exact absurd hb (by simp)
  · by_cases hheld : s.currently_pressed = []
    · rw [pc_press_norelease hr hc hm hsp (Or.inl hnew) (Or.inr hheld)]
      obtain ⟨f1, f2, f3, f4⟩ := press_result_fields (reset_repeat_state s) m c now
      exact ⟨f1, f2, rfl, rfl, rfl, f3, f4, [], reset_repeat_state s,
        (List.nil_append _).symm, rfl, rfl⟩
    · rw [pc_press_release hr hc hm hsp hnew hheld]
      obtain ⟨f1, f2, f3, f4⟩ :=
        press_result_fields (reset_repeat_state { s with currently_pressed := [] }) m c now
      refine ⟨f1, f2, rfl, rfl, rfl, f3, f4,
        s.currently_pressed.map Event.release ++ [Event.unhookAll],
        reset_repeat_state { s with currently_pressed := [] }, rfl, ?_, rfl⟩
      rw [List.countP_append, countP_isPress_map_release]
      rfl

/-- C3: bounce idempotence.  If `process_code c` succeeds at time `t0` for a
mapped non-Special code then a second `process_code c` at `t1` with
`t1 - t0 ≤ releaseTimeout` returns false, makes no actuator calls, and leaves
the engine state completely unchanged; for a Single string-keyed mapping
outside tapping mode the two calls together emit exactly one press. -/
theorem bounce_idempotent (s : KMState) (c : String) (t0 t1 : ℚ) (m : KeyMapping)
    (hr : s.running = true) (hc : c ≠ "REPEAT")
    (hm : getMapping s.mappings c = some m) (hsp : m.action_type ≠ .special)
    (hb : (process_code s c t0).2.2 = true)
    (ht : t1 - t0 ≤ s.release_timeout) :
    process_code (process_code s c t0).1 c t1 = ((process_code s c t0).1, [], false) ∧
    ∀ k d, m = ⟨.single, .str k, d⟩ → s.single_tapping_enabled = false →
      ((process_code s c t0).2.1 ++
        (process_code (process_code s c t0).1 c t1).2.1).countP isPress = 1 := by
  obtain ⟨hf_run, hf_maps, hf_lc, hf_lm, hf_lct, hf_rt, hf_tap, evR, u, hev, hevR, hu_tap⟩ :=
    pc_success_fields hr hc hm hsp hb
  have hsecond : process_code (process_code s c t0).1 c t1 =
      ((process_code s c t0).1, [], false) := by
    refine pc_bounce (hf_run.trans hr) hc (hf_maps ▸ hm) hsp hf_lc ?_
    rw [hf_lct, hf_rt]
    linarith
  refine ⟨hsecond, ?_⟩
  intro k d hmk htap
  rw [hsecond]
  rw [List.countP_append, hev, List.countP_append, hevR, hmk,
    eip_single_events (hu_tap.trans htap)]
  rfl

theorem bounce_idempotent_witness :
    process_code (process_code (initState demoMaps) "0x1" 0).1 "0x1" (1/10) =
      ((process_code (initState demoMaps) "0x1" 0).1, [], false) ∧
    ∀ k d, (⟨.single, .str "a", "Letter A"⟩ : KeyMapping) = ⟨.single, .str k, d⟩ →
      (initState demoMaps).single_tapping_enabled = false →
      ((process_code (initState demoMaps) "0x1" 0).2.1 ++
        (process_code (process_code (initState demoMaps) "0x1" 0).1 "0x1" (1/10)).2.1).countP
          isPress = 1 :=
  bounce_idempotent (initState demoMaps) "0x1" 0 (1/10) ⟨.single, .str "a", "Letter A"⟩
    rfl (by decide) (by decide) (by decide) (by decide) (by norm_num [initState])

/-! ### Repeat-timing scenario (spec section 8) -/

/-- The `REPEAT` token time stamps `0.05, 0.10, ..., 1.0`. -/
def repeatTimes : List ℚ := (List.range 20).map (fun k => ((k : ℚ) + 1) * (1/20))

/-- Press at `t = 0`, then `REPEAT` every `0.05 s` through `t = 1.0`. -/
def repeatScenario : List (String × ℚ) :=
  ("0x1", 0) :: repeatTimes.map (fun t => ("REPEAT", t))

/-- The prefix of the scenario up to and including `t = 0.3`. -/
def repeatScenarioPre : List (String × ℚ) :=
  ("0x1", 0) :: (List.range 6).map (fun k => ("REPEAT", ((k : ℚ) + 1) * (1/20)))

/-- C4 counterexample: in the spec's own scenario (Single mapping pressed at
`t = 0`, `REPEAT` every `0.05 s` through `t = 1.0`, delay `0.3`, rate
`0.009`), the engine fires exactly 14 repeat actions - one per `REPEAT`
token arriving at least `initialRepeatDelay` after the first `REPEAT` - and
not approximately `(1.0 - 0.3)/0.009 ≈ 78`; each repeat action of a Single
mapping emits exactly one `release`, so the release count is the repeat
action count. -/
theorem repeat_count_not_78 :
    (runProcs (initState demoMaps) repeatScenario).2.countP isRelease = 14 ∧
    ¬ 70 ≤ (runProcs (initState demoMaps) repeatScenario).2.countP isRelease := by
  decide

/-- C4 (amended): in the scenario, no repeat action (no `release` event)
fires through `t = 0.3`; over the whole hold exactly 14 repeat actions fire
(one per `REPEAT` token arriving at least `initialRepeatDelay = 0.3` after
the first `REPEAT` token at `t = 0.05`, the `0.05` token spacing exceeding
`repeatRate`), and the number of repeat actions never exceeds the number of
`REPEAT` tokens processed. -/
theorem repeat_timing_scenario :
    (runProcs (initState demoMaps) repeatScenarioPre).2.countP isRelease = 0 ∧
    (runProcs (initState demoMaps) repeatScenario).2.countP isRelease = 14 ∧
    (runProcs (initState demoMaps) repeatScenario).2.countP isRelease ≤
      (repeatScenario.filter (fun p => p.1 = "REPEAT")).length := by
  decide

/-! ### Counting lemmas for release events -/

theorem count_release_map (l : List String) (k : String) :
    (l.map Event.release).count (Event.release k) = l.count k := by
  induction l with
  | nil => rfl
  | cons a l ih => simp [List.count_cons, ih]

theorem count_release_unhook (k : String) :
    ([Event.unhookAll] : List Event).count (Event.release k) = 0 := by
  simp [List.count_cons]

/-- C5: auto-release liveness.  After `process_code` succeeds for a mapped
non-Special code at time `t0` and no further token is processed, once the
timer callback runs at any time `t` with `t - t0 > releaseTimeout` it
releases every held key exactly once, clears `lastCode` and `lastMapping`
(returning the engine to the idle state), and a second firing of the
callback issues no further key event (not destructively twice). -/
theorem auto_release_liveness (s : KMState) (c : String) (t0 t : ℚ) (m : KeyMapping)
    (hr : s.running = true) (hc : c ≠ "REPEAT")
    (hm : getMapping s.mappings c = some m) (hsp : m.action_type ≠ .special)
    (hnd : s.currently_pressed.Nodup)
    (hb : (process_code s c t0).2.2 = true)
    (ht : t - t0 > s.release_timeout) :
    (∀ k ∈ (process_code s c t0).1.currently_pressed,
      (auto_release (process_code s c t0).1 t).2.count (Event.release k) = 1) ∧
    (auto_release (process_code s c t0).1 t).1.currently_pressed = [] ∧
    (auto_release (process_code s c t0).1 t).1.last_code = none ∧
    (auto_release (process_code s c t0).1 t).1.last_mapping = none ∧
    ∀ t2, ∀ e ∈ (auto_release (auto_release (process_code s c t0).1 t).1 t2).2,
      e = Event.unhookAll := by
  obtain ⟨_, _, _, _, hf_lct, hf_rt, _, _, _, _, _, _⟩ :=
    pc_success_fields hr hc hm hsp hb
  have hnd1 : (process_code s c t0).1.currently_pressed.Nodup := pc_nodup hnd
  have hguard : t - (process_code s c t0).1.last_code_time ≥
      (process_code s c t0).1.release_timeout - 1/100 := by
    rw [hf_lct, hf_rt]
    linarith
  have hAR : auto_release (process_code s c t0).1 t =
      (reset_repeat_state { (process_code s c t0).1 with currently_pressed := [] },
       (process_code s c t0).1.currently_pressed.map Event.release ++ [Event.unhookAll]) := by
    unfold auto_release
    rw [if_pos hguard]
    rfl
  rw [hAR]
  refine ⟨?_, rfl, rfl, rfl, ?_⟩
  · intro k hk
    rw [List.count_append, count_release_map, count_release_unhook,
      List.count_eq_one_of_mem hnd1 hk]
  · intro t2 e he
    unfold auto_release at he
    split at he
    · simp only [release_all] at he
      rw [show (reset_repeat_state
          { (process_code s c t0).1 with currently_pressed := [] }).currently_pressed =
          ([] : List String) from rfl] at he
      rw [List.map_nil, List.nil_append, List.mem_singleton] at he
      exact he
    · exact absurd he (List.not_mem_nil e)

theorem auto_release_liveness_witness :
    (∀ k ∈ (process_code (initState demoMaps) "0x1" 0).1.currently_pressed,
      (auto_release (process_code (initState demoMaps) "0x1" 0).1 (13/100)).2.count
        (Event.release k) = 1) ∧
    (auto_release (process_code (initState demoMaps) "0x1" 0).1
      (13/100)).1.currently_pressed = [] ∧
    (auto_release (process_code (initState demoMaps) "0x1" 0).1 (13/100)).1.last_code
      = none ∧
    (auto_release (process_code (initState demoMaps) "0x1" 0).1 (13/100)).1.last_mapping
      = none ∧
    ∀ t2, ∀ e ∈ (auto_release
      (auto_release (process_code (initState demoMaps) "0x1" 0).1 (13/100)).1 t2).2,
      e = Event.unhookAll :=
  auto_release_liveness (initState demoMaps) "0x1" 0 (13/100)
    ⟨.single, .str "a", "Letter A"⟩ rfl (by decide) (by decide) (by decide)
    (by decide) (by decide) (by norm_num [initState])

/-- C7 counterexample: `cleanup()` alone does not stop the engine - a
subsequent `process_code` call on a mapped code still succeeds and presses a
key, contradicting the claim that after `cleanup()` every subsequent
`process_code` call returns false with no side effects. -/
theorem cleanup_does_not_disable :
    (process_code (cleanup (initState demoMaps)).1 "0x1" 0).2.2 = true ∧
    (process_code (cleanup (initState demoMaps)).1 "0x1" 0).2.1 = [Event.press "a"] := by
  decide

/-- C7 (amended): after `disable()` every subsequent `process_code` call
returns false immediately with no side effects (no actuator call, no state
change), and `cleanup()` releases every held key exactly once (a second
`cleanup` emits no further key event); but `cleanup()` alone does not
disable the engine - immediate ineffectiveness of future `process_code`
calls requires `disable()`. -/
theorem disable_and_cleanup_semantics (s : KMState) (c : String) (t : ℚ) :
    process_code (disable s) c t = (disable s, [], false) ∧
    (s.running = false → process_code s c t = (s, [], false)) ∧
    (s.currently_pressed.Nodup →
      ∀ k ∈ s.currently_pressed, (cleanup s).2.count (Event.release k) = 1) ∧
    (cleanup s).1.currently_pressed = [] ∧
    ∀ e ∈ (cleanup (cleanup s).1).2, e = Event.unhookAll := by
  refine ⟨pc_not_running rfl, fun h => pc_not_running h, ?_, cleanup_pressed s, ?_⟩
  · intro hnd k hk
    rw [show (cleanup s).2 =
        s.currently_pressed.map Event.release ++ [Event.unhookAll] from rfl,
      List.count_append, count_release_map, count_release_unhook,
      List.count_eq_one_of_mem hnd hk]
  · intro e he
    rw [cleanup_empty (cleanup_pressed s), List.mem_singleton] at he
    exact he

theorem disable_and_cleanup_semantics_witness :
    process_code (disable (process_code (initState demoMaps) "0x1" 0).1) "0x2" 1 =
      (disable (process_code (initState demoMaps) "0x1" 0).1, [], false) ∧
    ((process_code (initState demoMaps) "0x1" 0).1.running = false →
      process_code (process_code (initState demoMaps) "0x1" 0).1 "0x2" 1 =
        ((process_code (initState demoMaps) "0x1" 0).1, [], false)) ∧
    ((process_code (initState demoMaps) "0x1" 0).1.currently_pressed.Nodup →
      ∀ k ∈ (process_code (initState demoMaps) "0x1" 0).1.currently_pressed,
        (cleanup (process_code (initState demoMaps) "0x1" 0).1).2.count
          (Event.release k) = 1) ∧
    (cleanup (process_code (initState demoMaps) "0x1" 0).1).1.currently_pressed = [] ∧
    ∀ e ∈ (cleanup (cleanup (process_code (initState demoMaps) "0x1" 0).1).1).2,
      e = Event.unhookAll :=
  disable_and_cleanup_semantics (process_code (initState demoMaps) "0x1" 0).1 "0x2" 1

/-! ### Case-sensitivity of the mapping lookup -/

/-- Mapping table on which the letter case of the token matters. -/
def caseMaps : List (String × KeyMapping) := [("0xAB", ⟨.single, .str "a", "A"⟩)]

theorem getMapping_mem {maps : List (String × KeyMapping)} {c : String}
    {m : KeyMapping} (h : getMapping maps c = some m) : (c, m) ∈ maps := by
  induction maps with
  | nil => exact absurd h (by simp [getMapping])
  | cons p rest ih =>
    obtain ⟨k, m0⟩ := p
    unfold getMapping at h
    split at h
    · rename_i hk
      cases h
      exact hk ▸ List.mem_cons_self _ _
    · exact List.mem_cons_of_mem _ (ih h)

/-- C9 counterexample: with the table keyed `"0xAB"`, the token `"0xab"`
resolves to nothing (`process_code` returns false without state change)
while `"0xAB"` resolves and succeeds - the two cases of the same hex digits
do not find the same mapping entry. -/
theorem lookup_case_sensitive_cex :
    (process_code (initState caseMaps) "0xab" 0).2.2 = false ∧
    (process_code (initState caseMaps) "0xab" 0).1 = initState caseMaps ∧
    (process_code (initState caseMaps) "0xAB" 0).2.2 = true := by
  decide

/-- C9 (amended): the mapping lookup is an exact, case-sensitive string
match: a token resolves to a mapping only if it is literally one of the
table's keys, and a running engine fed a non-`REPEAT` token with no exact
table entry does nothing and returns false.  Tokens differing in letter case
are distinct keys. -/
theorem lookup_exact_match (s : KMState) (c : String) (t : ℚ) (m' : KeyMapping) :
    (s.running = true → c ≠ "REPEAT" → getMapping s.mappings c = none →
      process_code s c t = (s, [], false)) ∧
    (getMapping s.mappings c = some m' → (c, m') ∈ s.mappings) :=
  ⟨fun hr hc hm => pc_unmapped hr hc hm, fun h => getMapping_mem h⟩

theorem lookup_exact_match_witness :
    process_code (initState caseMaps) "0xab" 0 = (initState caseMaps, [], false) ∧
    ("0xAB", (⟨.single, .str "a", "A"⟩ : KeyMapping)) ∈ (initState caseMaps).mappings :=
  ⟨(lookup_exact_match (initState caseMaps) "0xab" 0 ⟨.single, .str "a", "A"⟩).1
      rfl (by decide) (by decide),
   (lookup_exact_match (initState caseMaps) "0xAB" 0 ⟨.single, .str "a", "A"⟩).2
      (by decide)⟩

/-- C6: Special actions are key-state neutral: for a code mapped to a
`Special` action, `process_code` makes no `press`/`release`/`pressAndRelease`
actuator call (at most the stop callback fires) and leaves `pressedKeys`,
`lastCode`, `lastMapping` and all repeat-tracking fields unchanged; the
toggles flip exactly their named flag and return true, `"stop"` with an
installed callback invokes it and returns true, and an unknown control name
is a complete no-op returning false. -/
theorem special_actions_neutral (s : KMState) (c : String) (now : ℚ) (m : KeyMapping)
    (hr : s.running = true) (hc : c ≠ "REPEAT")
    (hm : getMapping s.mappings c = some m) (hsp : m.action_type = .special) :
    (∀ e ∈ (process_code s c now).2.1, e = Event.stopCb) ∧
    (process_code s c now).1.currently_pressed = s.currently_pressed ∧
    (process_code s c now).1.last_code = s.last_code ∧
    (process_code s c now).1.last_mapping = s.last_mapping ∧
    (process_code s c now).1.last_code_time = s.last_code_time ∧
    (process_code s c now).1.first_repeat_time = s.first_repeat_time ∧
    (process_code s c now).1.repeat_started = s.repeat_started ∧
    (process_code s c now).1.last_repeat_action_time = s.last_repeat_action_time ∧
    (m.keys = Keys.str "toggle_ghost" →
      (process_code s c now).1.ghost_key_enabled = !s.ghost_key_enabled ∧
      (process_code s c now).2.2 = true) ∧
    (m.keys = Keys.str "toggle_tap" →
      (process_code s c now).1.single_tapping_enabled = !s.single_tapping_enabled ∧
      (process_code s c now).2.2 = true) ∧
    (m.keys = Keys.str "toggle_repeat" →
      (process_code s c now).1.repeat_enabled = !s.repeat_enabled ∧
      (process_code s c now).2.2 = true) ∧
    (m.keys = Keys.str "stop" → s.stop_cb = true →
      (process_code s c now).2.1 = [Event.stopCb] ∧
      (process_code s c now).2.2 = true) ∧
    (∀ n, m.keys = Keys.str n → n ≠ "stop" → n ≠ "toggle_ghost" →
      n ≠ "toggle_tap" → n ≠ "toggle_repeat" →
      process_code s c now = (s, [], false)) := by
  have hps := @pc_special_eq s c now m hr hc hm hsp
  obtain ⟨g, tp, rp, hsh, hev⟩ := handle_special_shape s m.keys
  rw [hps]
  refine ⟨hev, by rw [hsh], by rw [hsh], by rw [hsh], by rw [hsh], by rw [hsh],
    by rw [hsh], by rw [hsh], ?_, ?_, ?_, ?_, ?_⟩
  · intro hk
    rw [hk]
    simp [handle_special]
  · intro hk
    rw [hk]
    simp [handle_special]
  · intro hk
    rw [hk]
    simp [handle_special]
  · intro hk hcb
    rw [hk]
    simp [handle_special, hcb]
  · intro n hk h1 h2 h3 h4
    rw [hk]
    simp [handle_special, h1, h2, h3, h4]

theorem special_actions_neutral_witness :
    (∀ e ∈ (process_code (initState demoMaps) "0x5" 0).2.1, e = Event.stopCb) ∧
    (process_code (initState demoMaps) "0x5" 0).1.currently_pressed =
      (initState demoMaps).currently_pressed ∧
    (process_code (initState demoMaps) "0x5" 0).1.last_code =
      (initState demoMaps).last_code ∧
    (process_code (initState demoMaps) "0x5" 0).1.last_mapping =
      (initState demoMaps).last_mapping ∧
    (process_code (initState demoMaps) "0x5" 0).1.last_code_time =
      (initState demoMaps).last_code_time ∧
    (process_code (initState demoMaps) "0x5" 0).1.first_repeat_time =
      (initState demoMaps).first_repeat_time ∧
    (process_code (initState demoMaps) "0x5" 0).1.repeat_started =
      (initState demoMaps).repeat_started ∧
    (process_code (initState demoMaps) "0x5" 0).1.last_repeat_action_time =
      (initState demoMaps).last_repeat_action_time ∧
    ((⟨.special, .str "toggle_ghost", "Toggle ghost"⟩ : KeyMapping).keys =
        Keys.str "toggle_ghost" →
      (process_code (initState demoMaps) "0x5" 0).1.ghost_key_enabled =
        !(initState demoMaps).ghost_key_enabled ∧
      (process_code (initState demoMaps) "0x5" 0).2.2 = true) ∧
    ((⟨.special, .str "toggle_ghost", "Toggle ghost"⟩ : KeyMapping).keys =
        Keys.str "toggle_tap" →
      (process_code (initState demoMaps) "0x5" 0).1.single_tapping_enabled =
        !(initState demoMaps).single_tapping_enabled ∧
      (process_code (initState demoMaps) "0x5" 0).2.2 = true) ∧
    ((⟨.special, .str "toggle_ghost", "Toggle ghost"⟩ : KeyMapping).keys =
        Keys.str "toggle_repeat" →
      (process_code (initState demoMaps) "0x5" 0).1.repeat_enabled =
        !(initState demoMaps).repeat_enabled ∧
      (process_code (initState demoMaps) "0x5" 0).2.2 = true) ∧
    ((⟨.special, .str "toggle_ghost", "Toggle ghost"⟩ : KeyMapping).keys =
        Keys.str "stop" → (initState demoMaps).stop_cb = true →
      (process_code (initState demoMaps) "0x5" 0).2.1 = [Event.stopCb] ∧
      (process_code (initState demoMaps) "0x5" 0).2.2 = true) ∧
    (∀ n, (⟨.special, .str "toggle_ghost", "Toggle ghost"⟩ : KeyMapping).keys =
        Keys.str n → n ≠ "stop" → n ≠ "toggle_ghost" → n ≠ "toggle_tap" →
      n ≠ "toggle_repeat" →
      process_code (initState demoMaps) "0x5" 0 = (initState demoMaps, [], false)) :=
  special_actions_neutral (initState demoMaps) "0x5" 0
    ⟨.special, .str "toggle_ghost", "Toggle ghost"⟩ rfl (by decide) (by decide) rfl

/-! ### The ghost-key flag is never read by the action-execution paths -/

theorem execute_repeat_action_ghost (s : KMState) (b : Bool) (m : KeyMapping) :
    execute_repeat_action { s with ghost_key_enabled := b } m =
      execute_repeat_action s m := rfl

theorem execute_initial_press_ghost_events (u : KMState) (b : Bool) (m : KeyMapping) :
    (execute_initial_press { u with ghost_key_enabled := b } m).2 =
      (execute_initial_press u m).2 := by
  unfold execute_initial_press
  by_cases h : u.single_tapping_enabled = true
  · rw [if_pos h, if_pos h]
  · rw [if_neg h, if_neg h]
    cases hat : m.action_type <;> cases hk : m.keys <;> rfl

theorem handle_special_ghost_events (s : KMState) (b : Bool) (k : Keys) :
    (handle_special { s with ghost_key_enabled := b } k).2 =
      (handle_special s k).2 := by
  unfold handle_special
  cases k with
  | str a =>
    dsimp only
    split_ifs <;> rfl
  | list l => rfl

theorem handle_repeat_ghost_events (s : KMState) (b : Bool) (t : ℚ) :
    (handle_repeat { s with ghost_key_enabled := b } t).2 =
      (handle_repeat s t).2 := by
  unfold handle_repeat schedule_release
  dsimp only
  cases hlc : s.last_code <;> cases hlm : s.last_mapping <;> dsimp only
  cases hfrt : s.first_repeat_time <;> dsimp only <;> split_ifs <;> rfl

/-- C8 counterexample: with `ghostKeyEnabled = true`, a new Single action
executes with no press-then-release of any neutral key: the only actuator
call is the mapping's own `press "a"`, and no `pressAndRelease` occurs at
all - the engine never issues the ghost press the claim requires. -/
theorem ghost_flag_no_ghost_press :
    ({ initState demoMaps with ghost_key_enabled := true } : KMState).ghost_key_enabled
      = true ∧
    (process_code { initState demoMaps with ghost_key_enabled := true } "0x1" 0).2.2
      = true ∧
    (process_code { initState demoMaps with ghost_key_enabled := true } "0x1" 0).2.1
      = [Event.press "a"] ∧
    (process_code { initState demoMaps with ghost_key_enabled := true }
      "0x1" 0).2.1.countP
        (fun e => match e with | Event.pressAndRelease _ => true | _ => false) = 0 := by
  decide

/-- C8 (amended): when `ghostKeyEnabled` is false (the default) no ghost
press ever occurs, and the same holds when the flag is true: the flag is
toggleable but never read by any execution path, so the actuator events and
the boolean result of `process_code` are identical for any two values of the
flag - no ghost press-then-release is ever issued. -/
theorem ghost_flag_has_no_effect (s : KMState) (b1 b2 : Bool) (c : String) (t : ℚ) :
    (process_code { s with ghost_key_enabled := b1 } c t).2 =
      (process_code { s with ghost_key_enabled := b2 } c t).2 := by
  have key : ∀ b, (process_code { s with ghost_key_enabled := b } c t).2 =
      (process_code s c t).2 := by
    intro b
    by_cases hr : s.running = true
    · by_cases hc : c = "REPEAT"
      · subst hc
        rw [@pc_repeat_eq { s with ghost_key_enabled := b } t hr, pc_repeat_eq hr]
        exact handle_repeat_ghost_events s b t
      · cases hm : getMapping s.mappings c with
        | none =>
          rw [@pc_unmapped { s with ghost_key_enabled := b } c t hr hc hm,
            pc_unmapped hr hc hm]
        | some m =>
          by_cases hsp : m.action_type = .special
          · rw [@pc_special_eq { s with ghost_key_enabled := b } c t m hr hc hm hsp,
              pc_special_eq hr hc hm hsp]
            exact handle_special_ghost_events s b m.keys
          · by_cases hnew : s.last_code = some c
            · by_cases htt : t - s.last_code_time > s.release_timeout
              · rw [@pc_press_norelease { s with ghost_key_enabled := b } c t m
                    hr hc hm hsp (Or.inr htt) (Or.inl hnew),
                  pc_press_norelease hr hc hm hsp (Or.inr htt) (Or.inl hnew)]
                exact congrArg (fun ev => (ev, true))
                  (execute_initial_press_ghost_events (reset_repeat_state s) b m)
              · rw [@pc_bounce { s with ghost_key_enabled := b } c t m
                    hr hc hm hsp hnew htt,
                  pc_bounce hr hc hm hsp hnew htt]
            · by_cases hheld : s.currently_pressed = []
              · rw [@pc_press_norelease { s with ghost_key_enabled := b } c t m
                    hr hc hm hsp (Or.inl hnew) (Or.inr hheld),
                  pc_press_norelease hr hc hm hsp (Or.inl hnew) (Or.inr hheld)]
                exact congrArg (fun ev => (ev, true))
                  (execute_initial_press_ghost_events (reset_repeat_state s) b m)
              · rw [@pc_press_release { s with ghost_key_enabled := b } c t m
                    hr hc hm hsp hnew hheld,
                  pc_press_release hr hc hm hsp hnew hheld]
                exact congrArg
                  (fun ev => ((s.currently_pressed.map Event.release ++
                    [Event.unhookAll]) ++ ev, true))
                  (execute_initial_press_ghost_events
                    (reset_repeat_state { s with currently_pressed := [] }) b m)
    · rw [@pc_not_running { s with ghost_key_enabled := b } c t
          (Bool.not_eq_true _ ▸ hr),
        pc_not_running (Bool.not_eq_true _ ▸ hr)]
  exact (key b1).trans (key b2).symm

/-- C10: processing a `REPEAT` token never modifies the `pressedKeys` set:
for every engine state, `process_code s "REPEAT" t` leaves
`currently_pressed` exactly as it was, even when a repeat action fires and
issues release/press actuator calls. -/
theorem repeat_preserves_pressed_keys (s : KMState) (now : ℚ) :
    (process_code s "REPEAT" now).1.currently_pressed = s.currently_pressed := by
  by_cases hr : s.running = true
  · rw [pc_repeat_eq hr]
    obtain ⟨lct, frt, st, lrat, rt, hsh⟩ := handle_repeat_shape s now
    rw [hsh]
  · rw [pc_not_running (Bool.not_eq_true _ ▸ hr)]

end IRKeybridge
